import Mathlib
/-!
Verification of the symbol-resolution helper (`helper.py`).

The embedding translates the plugin's pure core into Lean:
* `lookup_symbol` (length gate + the index/open-files merge step),
* `symbol_at_point` (expanded-range lookup with single-word fallback),
* `filter_current_symbol` (dropping the hovered definition itself),
* `extractInfo`'s upward comment-block scan (`extractScan`),
* `miseEnForme` and its helpers `htmlList` / `htmlText`.

Lines of text are modelled as `List Char`; host services (the two symbol
searches, `find_open_file`, `text_point`, the word extractions at a point)
are explicit function parameters.  Fallible paths (Python raising on an
unbound variable or a `None` view) are modelled with `Option`.
-/

/-- Converts a string literal to the `List Char` representation used for
source-text lines throughout this development. -/

def str (s : String) : List Char := s.toList

/-- Char-wise lowercasing, modelling Python's `str.lower()` on the
ASCII-style doc-comment lines the plugin handles. -/

def lowerL (s : List Char) : List Char := s.map Char.toLower

/-- `isPrefOf n h` holds when `n` is an initial segment of `h`. -/

def isPrefOf : List Char → List Char → Bool
  | [], _ => true
  | _ :: _, [] => false
  | a :: as, b :: bs => a == b && isPrefOf as bs

/-- `containsSub n h` models Python's substring test `n in h`. -/

def containsSub (needle : List Char) : List Char → Bool
  | [] => isPrefOf needle []
  | c :: cs => isPrefOf needle (c :: cs) || containsSub needle cs

/-- `findSub n h` models Python's `h.find(n)`: index of the leftmost
occurrence of `n` in `h`, `none` when absent. -/

def findSub (needle : List Char) : List Char → Option Nat
  | [] => if isPrefOf needle [] then some 0 else none
  | c :: cs => if isPrefOf needle (c :: cs) then some 0 else (findSub needle cs).map (· + 1)

/-- `findHash temp` models `temp.find('#')`: index of the first `'#'`,
`none` (Python `-1`) when the line has no comment marker. -/

def findHash : List Char → Option Nat
  | [] => none
  | c :: cs => if c == '#' then some 0 else (findHash cs).map (· + 1)

/-- Length of a string after stripping leading and trailing whitespace,
modelling `len(symbol.strip())`. -/

def trimmedLength (s : String) : Nat :=
  ((s.toList.dropWhile Char.isWhitespace).reverse.dropWhile Char.isWhitespace).length

/-- A symbol location as produced by the host searches: tuple
`(path, display_path, (row, col))` with 1-based `row`.  Identity for the
merge is the `path` component only. -/

structure Location where
  path : String
  display : String
  row : Int
  col : Int
deriving DecidableEq

/-- `file_in_location_list fname locations` from `lookup_symbol`: does any
entry of `locations` have path `fname`? -/

def file_in_location_list (fname : String) (locations : List Location) : Bool :=
  locations.any (fun l => l.path == fname)

/-- One iteration of `lookup_symbol`'s combine loop over `index_locations`.
State is the pair `(locations, ofl_ignore)`; the inner Python loop that
appends every open-file entry with the matching path is the `filter`. -/

def mergeStep (open_file_locations : List Location)
    (st : List Location × List Location) (l : Location) :
    List Location × List Location :=
  if file_in_location_list l.path open_file_locations then
    if file_in_location_list l.path st.2 then st
    else
      let matching := open_file_locations.filter (fun ofl => l.path == ofl.path)
      (st.1 ++ matching, st.2 ++ matching)
  else
    (st.1 ++ [l], st.2)

/-- The combine step of `lookup_symbol`: loop over the index list, then
append the open-file entries whose path was never substituted. -/

def mergeLocations (index_locations open_file_locations : List Location) : List Location :=
  let st := index_locations.foldl (mergeStep open_file_locations) ([], [])
  st.1 ++ open_file_locations.filter (fun ofl => !(file_in_location_list ofl.path st.2))

/-- `lookup_symbol`, with the two host searches passed explicitly.  A
symbol whose stripped length is below 3 short-circuits to `[]` before
either search is consulted (the result is independent of them). -/

def lookup_symbol (searchIndex searchOpen : String → List Location)
    (symbol : String) : List Location :=
  if trimmedLength symbol < 3 then []
  else mergeLocations (searchIndex symbol) (searchOpen symbol)

/-- `symbol_at_point`: the two extraction results at the point (expanded
character class, then plain word) are passed as strings; the narrower one
is looked up only when the expanded lookup came back empty. -/

def symbol_at_point (searchIndex searchOpen : String → List Location)
    (expandedSymbol wordSymbol : String) : String × List Location :=
  let locations := lookup_symbol searchIndex searchOpen expandedSymbol
  if locations.length = 0 then
    (wordSymbol, lookup_symbol searchIndex searchOpen wordSymbol)
  else
    (expandedSymbol, locations)

/-- The slice of a Sublime view that `filter_current_symbol` consults:
its file name (`None` for unsaved views), its id, the surrounding
window's `find_open_file` (returning the found view's id), and
`text_point` mapping a 0-based (row, col) to an absolute point. -/

structure ViewModel where
  fileName : Option String
  viewId : Nat
  findOpenFileId : String → Option Nat
  textPoint : Int → Int → Int

/-- `match_view` from `filter_current_symbol`: does `path` refer to the
hovered view? -/

def match_view (path : String) (view : ViewModel) : Bool :=
  match view.fileName with
  | none =>
    if isPrefOf (str "<untitled ") path.toList then
      match view.findOpenFileId path with
      | none => false
      | some vid => vid == view.viewId
    else false
  | some fname => path == fname

/-- `filter_current_symbol`: drop every location that refers to the
hovered view and whose symbol span (begin point to begin + symbol
length, inclusive) contains the hover point. -/

def filter_current_symbol (view : ViewModel) (point : Int) (symbol : String) :
    List Location → List Location
  | [] => []
  | l :: rest =>
    if match_view l.path view then
      let symbol_begin_pt := view.textPoint (l.row - 1) l.col
      let symbol_end_pt := symbol_begin_pt + symbol.length
      if point ≥ symbol_begin_pt ∧ point ≤ symbol_end_pt then
        filter_current_symbol view point symbol rest
      else l :: filter_current_symbol view point symbol rest
    else l :: filter_current_symbol view point symbol rest

/-- The upward scan of `extractInfo`'s `while` loop.  The input list holds
the lines above the definition in scan order (closest line first, moving
towards the top of the file); reaching the end of the list models hitting
the top of the file, the spec's implicit terminal condition.  Branches are
in the source's order: sentinel terminator, comment-marker line (with the
four decorative-divider skips, checked only when the line has a `'#'`),
blank line, signature line, and the unrelated-code stop. -/

def extractScan : List (List Char) → List (List Char)
  | [] => []
  | temp :: rest =>
    if containsSub (str "END FUNCTION") temp then []
    else
      match findHash temp with
      | some pos =>
        if containsSub (str "######") temp then extractScan rest
        else if containsSub (str "======") temp then extractScan rest
        else if containsSub (str "-----") temp then extractScan rest
        else if containsSub (str "<><><") temp then extractScan rest
        else temp.drop (pos + 1) :: extractScan rest
      | none =>
        if temp.length = 0 then extractScan rest
        else if containsSub (str "FUNCTION") temp then extractScan rest
        else []

/-- State of `miseEnForme`'s classification loop: the four buckets plus
the `last` tag memory cell. -/

structure FormatState where
  inputParam : List (List Char)
  outputParam : List (List Char)
  description : List (List Char)
  other : List (List Char)
  last : List Char
deriving DecidableEq

/-- Initial classification state: empty buckets, `last = ''`. -/

def initFormatState : FormatState := ⟨[], [], [], [], []⟩

/-- The single-quote character, used inside the rendered HTML attribute
and the French headings. -/

def squote : Char := Char.ofNat 39

/-- The `<p style='margin-left : 10px;'>` fragment opening an indented
continuation of a `@param` / `@return` entry. -/

def indentOpen : List Char :=
  str "<p style=" ++ [squote] ++ str "margin-left : 10px;" ++ [squote] ++ str ">"

/-- `bucket[len(bucket)-1] += frag` from the continuation branches.  On an
empty bucket Python would raise `IndexError`; that case is unreachable
because the `last` tag is only set when the bucket just received an entry,
and is modelled as a no-op. -/

def appendToLast (l : List (List Char)) (frag : List Char) : List (List Char) :=
  match l.getLast? with
  | none => l
  | some x => l.dropLast ++ [x ++ frag]

/-- One iteration of `miseEnForme`'s classification loop, in the source's
branch order: `@param`, `@return`, `@desc` (all case-insensitive), any
other `@` line, then the continuation branches driven by `last`. -/

def miseEnFormeStep (st : FormatState) (ligne : List Char) : FormatState :=
  if containsSub (str "@param") (lowerL ligne) then
    { st with
      inputParam := st.inputParam ++ [ligne.drop ((findSub (str "@param") (lowerL ligne)).getD 0 + 6)],
      last := str "@param" }
  else if containsSub (str "@return") (lowerL ligne) then
    { st with
      outputParam := st.outputParam ++ [ligne.drop ((findSub (str "@return") (lowerL ligne)).getD 0 + 7)],
      last := str "@return" }
  else if containsSub (str "@desc") (lowerL ligne) then
    { st with
      description := st.description ++ [ligne.drop ((findSub (str "@desc") (lowerL ligne)).getD 0 + 5)],
      last := str "@desc" }
  else if ligne.contains '@' then
    { st with other := st.other ++ [ligne], last := [] }
  else
    if st.last == str "@param" then
      { st with inputParam := appendToLast st.inputParam (indentOpen ++ ligne ++ str "</p>") }
    else if st.last == str "@return" then
      { st with outputParam := appendToLast st.outputParam (indentOpen ++ ligne ++ str "</p>") }
    else if st.last == str "@desc" then
      { st with description := st.description ++ [ligne] }
    else
      { st with other := st.other ++ [ligne], last := [] }

/-- The classification pass of `miseEnForme` over the extracted lines. -/

def formatBuckets (textTab : List (List Char)) : FormatState :=
  textTab.foldl miseEnFormeStep initFormatState

/-- `htmlList`: renders a bucket as an unordered list, one `<li>` per
entry. -/

def htmlList (liste : List (List Char)) : List Char :=
  (liste.foldl (fun html ligne => html ++ (str "<li>" ++ ligne ++ str "</li>")) (str "<ul>"))
    ++ str "</ul>"

/-- `htmlText`: renders a bucket as a sequence of paragraphs. -/

def htmlText (liste : List (List Char)) : List Char :=
  liste.foldl (fun html ligne => html ++ (str "<p>" ++ ligne ++ str "</p>")) []

/-- Singular input-parameter heading `<p>Paramètre d'entrée :</p>`. -/

def headerIn1 : List Char := str "<p>Paramètre d" ++ [squote] ++ str "entrée :</p>"

/-- Plural input-parameter heading `<p>Paramètres d'entrées :</p>`. -/

def headerInN : List Char := str "<p>Paramètres d" ++ [squote] ++ str "entrées :</p>"

/-- Singular output-parameter heading. -/

def headerOut1 : List Char := str "<p>Paramètre de sortie :</p>"

/-- Plural output-parameter heading. -/

def headerOutN : List Char := str "<p>Paramètres de sorties :</p>"

/-- `miseEnForme`: classify the lines, then emit the four sections in the
source's fixed order, each guarded by its bucket being non-empty. -/

def miseEnForme (textTab : List (List Char)) : List Char :=
  let st := formatBuckets textTab
  (if st.description.length ≠ 0 then
    str "<p>Description</p>" ++ str "<ul>" ++ htmlText st.description ++ str "</ul>"
   else [])
  ++ (if st.inputParam.length ≠ 0 then
        (if st.inputParam.length = 1 then headerIn1 else headerInN) ++ htmlList st.inputParam
      else [])
  ++ (if st.outputParam.length ≠ 0 then
        (if st.outputParam.length = 1 then headerOut1 else headerOutN) ++ htmlList st.outputParam
      else [])
  ++ (if st.other.length ≠ 0 then htmlText st.other else [])

/-- The view left in `extractInfo`'s loop variable after
`for l in locations: view = view.window().find_open_file(l[0])`: the open
file (as its list of lines) found for the *last* location's path, provided
every earlier path also resolved to an open view (a `None` at any earlier
step makes the next iteration's `view.window()` raise, and a `None` at the
last step makes the scan's `view.substr` raise: both are `none` here, as
is the empty list, where `l` stays unbound and the scan raises). -/

def viewAfterLoop (findOpen : String → Option (List (List Char))) :
    List Location → Option (List (List Char))
  | [] => none
  | [l] => findOpen l.path
  | l :: l2 :: rest =>
    match findOpen l.path with
    | none => none
    | some _ => viewAfterLoop findOpen (l2 :: rest)

/-- The comment block extracted and rendered for one location inside one
open file: scan the lines above row `l.row` (1-based) bottom-up, reverse
the collected tab back to top-down order, and format it. -/

def extractFromView (lines : List (List Char)) (l : Location) : List Char :=
  miseEnForme ((extractScan ((lines.take (l.row - 1).toNat).reverse)).reverse)

/-- `extractInfo`: after the view-reassignment loop, the scan runs on the
final `view` with the final loop variable `l`, i.e. on the last location
of the input list.  `none` models the Python error paths (empty location
list, or some path not open). -/

def extractInfo (findOpen : String → Option (List (List Char)))
    (locations : List Location) : Option (List Char) :=
  match viewAfterLoop findOpen locations, locations.getLast? with
  | some lines, some l => some (extractFromView lines l)
  | _, _ => none

/-- A line consisting solely of a run of `'#'` characters (length at
least one): the "divider" shape named by the claim. -/

def isHashRun (l : List Char) : Bool := !l.isEmpty && l.all (fun c => c == '#')

/-- The description section of the rendered markup (heading plus list),
empty when the bucket is empty. -/

def sectionDescriptionHtml (st : FormatState) : List Char :=
  if st.description.length ≠ 0 then
    str "<p>Description</p>" ++ str "<ul>" ++ htmlText st.description ++ str "</ul>"
  else []

/-- The input-parameter section (pluralized heading plus list). -/

def sectionInputHtml (st : FormatState) : List Char :=
  if st.inputParam.length ≠ 0 then
    (if st.inputParam.length = 1 then headerIn1 else headerInN) ++ htmlList st.inputParam
  else []

/-- The output-parameter section (pluralized heading plus list). -/

def sectionOutputHtml (st : FormatState) : List Char :=
  if st.outputParam.length ≠ 0 then
    (if st.outputParam.length = 1 then headerOut1 else headerOutN) ++ htmlList st.outputParam
  else []

/-- The headingless other-bucket section. -/

def sectionOtherHtml (st : FormatState) : List Char :=
  if st.other.length ≠ 0 then htmlText st.other else []

/-- Open file `a` used for the C2 counterexample: a doc comment above a
definition on row 3. -/

def linesA : List (List Char) := [str "codeA;", str "# docA", str "defA"]

/-- Open file `b` used for the C2 counterexample. -/

def linesB : List (List Char) := [str "codeB;", str "# docB", str "defB"]

/-- A two-file `find_open_file` collaborator for the C2 counterexample. -/

def foAB : String → Option (List (List Char)) :=
  fun p => if p == "a" then some linesA else if p == "b" then some linesB else none

/-- First location of the C2 counterexample list. -/

def locA : Location := ⟨"a", "a", 3, 0⟩

/-- Second (last) location of the C2 counterexample list. -/

def locB : Location := ⟨"b", "b", 3, 0⟩

lemma containsSub_of_isPrefOf {n h : List Char} (hp : isPrefOf n h = true) :
    containsSub n h = true := by
  cases h with
  | nil => simpa [containsSub] using hp
  | cons c cs => simp [containsSub, hp]

lemma containsSub_of_isPrefOf_append {x y h : List Char}
    (hp : isPrefOf (x ++ y) h = true) : containsSub y h = true := by
  induction x generalizing h with
  | nil => exact containsSub_of_isPrefOf (by simpa using hp)
  | cons a as ih =>
    cases h with
    | nil => simp [isPrefOf] at hp
    | cons b bs =>
      simp only [List.cons_append, isPrefOf, Bool.and_eq_true] at hp
      have hbs := ih hp.2
      simp [containsSub, hbs]

lemma containsSub_append_right {x y h : List Char}
    (hc : containsSub (x ++ y) h = true) : containsSub y h = true := by
  induction h with
  | nil =>
    cases x with
    | nil => simpa using hc
    | cons a as => simp [containsSub, isPrefOf] at hc
  | cons c cs ih =>
    simp only [containsSub, Bool.or_eq_true] at hc
    rcases hc with h1 | h2
    · exact containsSub_of_isPrefOf_append h1
    · simp only [containsSub, Bool.or_eq_true]
      exact Or.inr (ih h2)

lemma mem_of_isPrefOf {n h : List Char} (hp : isPrefOf n h = true)
    {c : Char} (hm : c ∈ n) : c ∈ h := by
  induction n generalizing h with
  | nil => simp at hm
  | cons a as ih =>
    cases h with
    | nil => simp [isPrefOf] at hp
    | cons b bs =>
      simp only [isPrefOf, Bool.and_eq_true, beq_iff_eq] at hp
      rcases List.mem_cons.1 hm with rfl | hmm
      · rw [hp.1]; exact List.mem_cons_self _ _
      · exact List.mem_cons_of_mem _ (ih hp.2 hmm)

lemma mem_of_containsSub {n h : List Char} (hc : containsSub n h = true)
    {c : Char} (hm : c ∈ n) : c ∈ h := by
  induction h with
  | nil =>
    cases n with
    | nil => simp at hm
    | cons a as => simp [containsSub, isPrefOf] at hc
  | cons b bs ih =>
    simp only [containsSub, Bool.or_eq_true] at hc
    rcases hc with h1 | h2
    · exact mem_of_isPrefOf h1 hm
    · exact List.mem_cons_of_mem _ (ih h2)

/-- C4: a symbol whose whitespace-stripped length is below 3 makes
`lookup_symbol` return the empty list, whatever the two external searches
would answer — in particular their results are never consulted. -/

theorem short_symbol_gate (symbol : String) (h : trimmedLength symbol < 3)
    (searchIndex searchOpen : String → List Location) :
    lookup_symbol searchIndex searchOpen symbol = [] := by
  simp [lookup_symbol, h]

/-- Witness for C4 at the spec's example `"ab"`, with searches that would
return a location if they were consulted. -/

theorem short_symbol_gate_witness :
    lookup_symbol (fun _ => [⟨"a", "a", 1, 0⟩]) (fun _ => [⟨"a", "a", 1, 0⟩]) "ab" = [] :=
  short_symbol_gate "ab" (by decide) _ _

/-- C5: the narrower word lookup is attempted exactly when the
expanded-range lookup returned zero locations; when the expanded lookup is
non-empty its symbol and locations are returned, and the result does not
depend on the word symbol at all (the fallback lookup is never made). -/

theorem fallback_only_on_empty (searchIndex searchOpen : String → List Location)
    (expandedSymbol wordSymbol wordSymbol2 : String) :
    (lookup_symbol searchIndex searchOpen expandedSymbol = [] →
      symbol_at_point searchIndex searchOpen expandedSymbol wordSymbol
        = (wordSymbol, lookup_symbol searchIndex searchOpen wordSymbol))
    ∧ (lookup_symbol searchIndex searchOpen expandedSymbol ≠ [] →
      symbol_at_point searchIndex searchOpen expandedSymbol wordSymbol
        = (expandedSymbol, lookup_symbol searchIndex searchOpen expandedSymbol)
      ∧ symbol_at_point searchIndex searchOpen expandedSymbol wordSymbol
        = symbol_at_point searchIndex searchOpen expandedSymbol wordSymbol2) := by
  constructor
  · intro h
    simp [symbol_at_point, h]
  · intro h
    have hlen : ¬ (lookup_symbol searchIndex searchOpen expandedSymbol).length = 0 := by
      simpa [List.length_eq_zero] using h
    simp [symbol_at_point, hlen]

/-- Witness for C5: an empty expanded lookup falls back to the word
symbol; a non-empty one returns the expanded symbol unchanged. -/

theorem fallback_only_on_empty_witness :
    (symbol_at_point (fun _ => []) (fun _ => []) "abcd" "wxyz" = ("wxyz", []))
    ∧ (symbol_at_point (fun _ => [⟨"a", "a", 1, 0⟩]) (fun _ => [⟨"a", "a", 1, 0⟩]) "abcd" "wxyz"
        = ("abcd", [⟨"a", "a", 1, 0⟩])) :=
  ⟨(fallback_only_on_empty (fun _ => []) (fun _ => []) "abcd" "wxyz" "wxyz").1 (by decide),
   ((fallback_only_on_empty (fun _ => [⟨"a", "a", 1, 0⟩]) (fun _ => [⟨"a", "a", 1, 0⟩])
      "abcd" "wxyz" "wxyz").2 (by decide)).1⟩

/-- C10: `filter_current_symbol` is exactly a `List.filter` of its input —
hence a subsequence, keeping order, never adding or editing entries — and
an entry is dropped precisely when it refers to the hovered view and the
point lies in the closed span from the symbol's begin point to begin plus
the symbol's length. -/

theorem filter_current_symbol_subsequence (view : ViewModel) (point : Int)
    (symbol : String) (locations : List Location) :
    filter_current_symbol view point symbol locations
      = locations.filter (fun l =>
          !(match_view l.path view
            && (decide (view.textPoint (l.row - 1) l.col ≤ point)
                && decide (point ≤ view.textPoint (l.row - 1) l.col + symbol.length))))
    ∧ List.Sublist (filter_current_symbol view point symbol locations) locations := by
  have heq : filter_current_symbol view point symbol locations
      = locations.filter (fun l =>
          !(match_view l.path view
            && (decide (view.textPoint (l.row - 1) l.col ≤ point)
                && decide (point ≤ view.textPoint (l.row - 1) l.col + symbol.length)))) := by
    induction locations with
    | nil => rfl
    | cons l rest ih =>
      by_cases h1 : match_view l.path view = true
      · by_cases h2 : view.textPoint (l.row - 1) l.col ≤ point
        · by_cases h3 : point ≤ view.textPoint (l.row - 1) l.col + symbol.length
          · simp [filter_current_symbol, h1, h2, h3, ih, ge_iff_le]
          · simp [filter_current_symbol, h1, h2, h3, ih, ge_iff_le]
        · simp [filter_current_symbol, h1, h2, ih, ge_iff_le]
      · simp [filter_current_symbol, h1, ih]
  exact ⟨heq, heq ▸ List.filter_sublist _⟩

/-- C6: during the upward scan, a non-empty line with no `'#'` and without
the keyword `FUNCTION` stops the scan at once, contributing nothing. -/

theorem scan_stop_on_content (temp : List Char) (rest : List (List Char))
    (h0 : temp ≠ []) (h1 : findHash temp = none)
    (h2 : containsSub (str "FUNCTION") temp = false) :
    extractScan (temp :: rest) = [] := by
  have hEnd : containsSub (str "END FUNCTION") temp = false := by
    by_contra hx
    rw [Bool.not_eq_false] at hx
    have hfn : containsSub (str "FUNCTION") temp = true := by
      have heq : str "END FUNCTION" = str "END " ++ str "FUNCTION" := by decide
      exact containsSub_append_right (heq ▸ hx)
    simp [hfn] at h2
  have hlen : ¬ temp.length = 0 := by simpa [List.length_eq_zero] using h0
  simp [extractScan, hEnd, h1, h2, hlen]

/-- Witness for C6: the line `xyz` halts the scan even though a comment
line sits above it. -/

theorem scan_stop_on_content_witness : extractScan [str "xyz", str "# doc"] = [] :=
  scan_stop_on_content (str "xyz") [str "# doc"] (by decide) (by decide) (by decide)

lemma isPrefOf_replicate_hash {l : List Char} (hall : ∀ c ∈ l, c = '#') :
    ∀ k, k ≤ l.length → isPrefOf (List.replicate k '#') l = true := by
  intro k
  induction k generalizing l with
  | zero => intro _; simp [isPrefOf]
  | succ k ih =>
    intro hk
    cases l with
    | nil => simp at hk
    | cons c cs =>
      have hc : c = '#' := hall c (List.mem_cons_self _ _)
      have hcs : ∀ x ∈ cs, x = '#' := fun x hx => hall x (List.mem_cons_of_mem _ hx)
      simp only [List.replicate_succ, isPrefOf, Bool.and_eq_true, beq_iff_eq]
      exact ⟨hc.symm, ih hcs (Nat.succ_le_succ_iff.1 (by simpa using hk))⟩

/-- C3 counterexample: the two-character divider line `##` is *not*
excluded — the scan appends the text after its first `'#'` (here `#`), so
the extracted content differs from the scan without that line. -/

theorem divider_skip_counterexample :
    isHashRun (str "##") = true
    ∧ extractScan [str "##"] = [str "#"]
    ∧ extractScan ([] : List (List Char)) = [] := by
  decide

/-- C3 amended: only a run of at least six `'#'` characters matches the
hash-divider pattern `######` and is skipped (excluded while the scan
continues); shorter runs fall through to the content branch. -/

theorem divider_skip_amended (temp : List Char) (rest : List (List Char))
    (h1 : isHashRun temp = true) (h6 : 6 ≤ temp.length) :
    extractScan (temp :: rest) = extractScan rest := by
  have hall : ∀ c ∈ temp, c = '#' := by
    simp only [isHashRun, Bool.and_eq_true, List.all_eq_true, beq_iff_eq] at h1
    exact h1.2
  have hEnd : containsSub (str "END FUNCTION") temp = false := by
    by_contra hx
    rw [Bool.not_eq_false] at hx
    have hE : 'E' ∈ temp := mem_of_containsSub hx (by decide)
    exact absurd (hall 'E' hE) (by decide)
  have hdiv : containsSub (str "######") temp = true := by
    have hrep : str "######" = List.replicate 6 '#' := by decide
    rw [hrep]
    exact containsSub_of_isPrefOf (isPrefOf_replicate_hash hall 6 h6)
  have hhash : findHash temp = some 0 := by
    cases temp with
    | nil => simp at h6
    | cons c cs =>
      have hc : c = '#' := hall c (List.mem_cons_self _ _)
      simp [findHash, hc]
  simp [extractScan, hEnd, hhash, hdiv]

/-- Witness for the amended C3: a six-hash divider line is skipped and the
scan continues into the comment line above it. -/

theorem divider_skip_witness :
    extractScan [str "######", str "# doc"] = extractScan [str "# doc"] :=
  divider_skip_amended (str "######") [str "# doc"] (by decide) (by decide)

lemma appendToLast_concat (pre : List (List Char)) (x f : List Char) :
    appendToLast (pre ++ [x]) f = pre ++ [x ++ f] := by
  simp [appendToLast]

/-- C7: a marker-less line arriving while `last` is `@param` (resp.
`@return`) is concatenated, wrapped in the indented `<p>` fragment, onto
the bucket's most recent entry; no bucket gains or loses an entry, so the
two lines render as a single list item.  The last conjunct checks the
spec's concrete example. -/

theorem formatter_tag_continuation (st : FormatState) (c : List Char)
    (hc1 : containsSub (str "@param") (lowerL c) = false)
    (hc2 : containsSub (str "@return") (lowerL c) = false)
    (hc3 : containsSub (str "@desc") (lowerL c) = false)
    (hc4 : c.contains '@' = false) :
    (st.last = str "@param" → ∀ pre x, st.inputParam = pre ++ [x] →
      (miseEnFormeStep st c).inputParam = pre ++ [x ++ (indentOpen ++ c ++ str "</p>")]
      ∧ (miseEnFormeStep st c).outputParam = st.outputParam
      ∧ (miseEnFormeStep st c).description = st.description
      ∧ (miseEnFormeStep st c).other = st.other)
    ∧ (st.last = str "@return" → ∀ pre x, st.outputParam = pre ++ [x] →
      (miseEnFormeStep st c).outputParam = pre ++ [x ++ (indentOpen ++ c ++ str "</p>")]
      ∧ (miseEnFormeStep st c).inputParam = st.inputParam
      ∧ (miseEnFormeStep st c).description = st.description
      ∧ (miseEnFormeStep st c).other = st.other)
    ∧ (formatBuckets [str "@param x: the input", str "  more detail"]).inputParam
        = [str " x: the input" ++ (indentOpen ++ str "  more detail" ++ str "</p>")] := by
  have hc4m : '@' ∉ c := by simpa using hc4
  refine ⟨?_, ?_, by decide⟩
  · intro hlast pre x hpre
    simp [miseEnFormeStep, hc1, hc2, hc3, hc4m, hlast, hpre, appendToLast_concat]
  · intro hlast pre x hpre
    have hne : (str "@return" == str "@param") = false := by decide
    simp [miseEnFormeStep, hc1, hc2, hc3, hc4m, hlast, hpre, hne, appendToLast_concat]

/-- Witness for C7 at the spec's example: the continuation line lands
inside the single existing `@param` entry. -/

theorem formatter_tag_continuation_witness :
    (miseEnFormeStep ⟨[str " x: the input"], [], [], [], str "@param"⟩ (str "  more detail")).inputParam
      = [str " x: the input" ++ (indentOpen ++ str "  more detail" ++ str "</p>")] :=
  (((formatter_tag_continuation ⟨[str " x: the input"], [], [], [], str "@param"⟩
      (str "  more detail") (by decide) (by decide) (by decide) (by decide)).1
    rfl [] (str " x: the input") rfl)).1

lemma foldl_outputParam_nil :
    ∀ (textTab : List (List Char)) (st : FormatState),
      (∀ ligne ∈ textTab, containsSub (str "@return") (lowerL ligne) = false) →
      st.outputParam = [] →
      (textTab.foldl miseEnFormeStep st).outputParam = [] := by
  intro textTab
  induction textTab with
  | nil => intro st _ hst; simpa using hst
  | cons ligne tab ih =>
    intro st h hst
    rw [List.foldl_cons]
    refine ih _ (fun l hl => h l (List.mem_cons_of_mem _ hl)) ?_
    have hret := h ligne (List.mem_cons_self _ _)
    unfold miseEnFormeStep
    simp only [hret, Bool.false_eq_true, if_false]
    repeat' split
    all_goals simp [hst, appendToLast]

/-- C8: when no input line contains `@return`, the output-parameter bucket
stays empty and the rendered markup is just the description, input and
other sections with no output section or heading; moreover, on any input
the markup is the four sections in the source's fixed order, each of which
collapses to nothing when its bucket is empty. -/

theorem formatter_section_omission (textTab : List (List Char))
    (h : ∀ ligne ∈ textTab, containsSub (str "@return") (lowerL ligne) = false) :
    (formatBuckets textTab).outputParam = []
    ∧ miseEnForme textTab =
        sectionDescriptionHtml (formatBuckets textTab)
          ++ sectionInputHtml (formatBuckets textTab)
          ++ sectionOtherHtml (formatBuckets textTab)
    ∧ (∀ tab : List (List Char),
        miseEnForme tab =
          sectionDescriptionHtml (formatBuckets tab) ++ sectionInputHtml (formatBuckets tab)
            ++ sectionOutputHtml (formatBuckets tab) ++ sectionOtherHtml (formatBuckets tab))
    ∧ (∀ st : FormatState,
        (st.description = [] → sectionDescriptionHtml st = [])
        ∧ (st.inputParam = [] → sectionInputHtml st = [])
        ∧ (st.outputParam = [] → sectionOutputHtml st = [])
        ∧ (st.other = [] → sectionOtherHtml st = [])) := by
  have hout : (formatBuckets textTab).outputParam = [] :=
    foldl_outputParam_nil textTab initFormatState h rfl
  have hdecomp : ∀ tab : List (List Char),
      miseEnForme tab =
        sectionDescriptionHtml (formatBuckets tab) ++ sectionInputHtml (formatBuckets tab)
          ++ sectionOutputHtml (formatBuckets tab) ++ sectionOtherHtml (formatBuckets tab) := by
    intro tab
    simp [miseEnForme, sectionDescriptionHtml, sectionInputHtml, sectionOutputHtml,
      sectionOtherHtml, List.append_assoc]
  refine ⟨hout, ?_, hdecomp, ?_⟩
  · rw [hdecomp textTab]
    have : sectionOutputHtml (formatBuckets textTab) = [] := by
      simp [sectionOutputHtml, hout]
    rw [this]
    simp
  · intro st
    refine ⟨?_, ?_, ?_, ?_⟩ <;> intro hnil <;>
      simp [sectionDescriptionHtml, sectionInputHtml, sectionOutputHtml, sectionOtherHtml, hnil]

/-- Witness for C8: a two-line block with no `@return` renders with no
output-parameter section. -/

theorem formatter_section_omission_witness :
    (formatBuckets [str "@param x", str "@desc hello"]).outputParam = []
    ∧ miseEnForme [str "@param x", str "@desc hello"] =
        sectionDescriptionHtml (formatBuckets [str "@param x", str "@desc hello"])
          ++ sectionInputHtml (formatBuckets [str "@param x", str "@desc hello"])
          ++ sectionOtherHtml (formatBuckets [str "@param x", str "@desc hello"]) :=
  ⟨(formatter_section_omission [str "@param x", str "@desc hello"] (by decide)).1,
   (formatter_section_omission [str "@param x", str "@desc hello"] (by decide)).2.1⟩

lemma viewAfterLoop_concat (findOpen : String → Option (List (List Char))) :
    ∀ (locs : List Location) (l : Location),
      (∀ loc ∈ locs, (findOpen loc.path).isSome = true) →
      viewAfterLoop findOpen (locs ++ [l]) = findOpen l.path := by
  intro locs
  induction locs with
  | nil => intro l _; rfl
  | cons x xs ih =>
    intro l h
    obtain ⟨v, hv⟩ := Option.isSome_iff_exists.1 (h x (List.mem_cons_self _ _))
    have hrest := fun loc hl => h loc (List.mem_cons_of_mem _ hl)
    cases xs with
    | nil => simp [viewAfterLoop, hv]
    | cons y ys =>
      have := ih l hrest
      simpa [viewAfterLoop, hv] using this

/-- C2 is false on the code: `extractInfo`'s loop variable reuse makes the
scan run on the *last* location, not the first.  Amended claim: when all
listed paths are open, the rendered documentation block is the one
extracted for the last location only; the other locations' files are
probed for being open but their documentation is never extracted. -/

theorem extract_last_location_amended (findOpen : String → Option (List (List Char)))
    (locs : List Location) (l : Location)
    (h : ∀ loc ∈ locs, (findOpen loc.path).isSome = true) :
    extractInfo findOpen (locs ++ [l])
      = (findOpen l.path).map (fun lines => extractFromView lines l) := by
  unfold extractInfo
  rw [viewAfterLoop_concat findOpen locs l h, List.getLast?_concat]
  cases hfo : findOpen l.path <;> simp

/-- C2 counterexample: with two locations whose files carry different doc
comments, the popup's documentation block is the last location's, not the
first's, refuting the claim at this concrete input. -/

theorem extract_first_location_counterexample :
    extractInfo foAB [locA, locB] = some (extractFromView linesB locB)
    ∧ extractFromView linesA locA ≠ extractFromView linesB locB
    ∧ extractInfo foAB [locA, locB] ≠ some (extractFromView linesA locA) := by
  decide

/-- Witness for the amended C2 on the counterexample's data. -/

theorem extract_last_location_witness :
    extractInfo foAB ([locA] ++ [locB])
      = (foAB locB.path).map (fun lines => extractFromView lines locB) :=
  extract_last_location_amended foAB [locA] locB (by decide)

lemma file_in_cons (q : String) (l : Location) (L : List Location) :
    file_in_location_list q (l :: L) = ((l.path == q) || file_in_location_list q L) := by
  simp [file_in_location_list]

lemma file_in_append (q : String) (A B : List Location) :
    file_in_location_list q (A ++ B)
      = (file_in_location_list q A || file_in_location_list q B) := by
  simp [file_in_location_list]

lemma file_in_of_mem {o : Location} {O : List Location} (ho : o ∈ O) :
    file_in_location_list o.path O = true := by
  simp only [file_in_location_list, List.any_eq_true, beq_iff_eq]
  exact ⟨o, ho, rfl⟩

lemma file_in_filter_path (q p : String) (O : List Location) :
    file_in_location_list q (O.filter (fun o => p == o.path))
      = ((p == q) && file_in_location_list p O) := by
  induction O with
  | nil => simp [file_in_location_list]
  | cons o O ih =>
    by_cases hpo : p = o.path
    · rw [List.filter_cons, if_pos (by simpa using hpo)]
      rw [file_in_cons, ih, file_in_cons]
      rw [← hpo]
      by_cases hq : p = q
      · simp [hq]
      · simp [hq]
    · rw [List.filter_cons, if_neg (by simpa using hpo)]
      rw [ih, file_in_cons]
      have : (o.path == p) = false := by simpa [beq_eq_false_iff_ne] using Ne.symm hpo
      simp [this]

lemma mergeLoop_acc (O : List Location) :
    ∀ (I : List Location) (acc ign : List Location),
      (I.foldl (mergeStep O) (acc, ign)).1 = acc ++ (I.foldl (mergeStep O) ([], ign)).1
      ∧ (I.foldl (mergeStep O) (acc, ign)).2 = (I.foldl (mergeStep O) ([], ign)).2 := by
  intro I
  induction I with
  | nil => intro acc ign; simp
  | cons l I ih =>
    intro acc ign
    rw [List.foldl_cons, List.foldl_cons]
    by_cases h1 : file_in_location_list l.path O = true
    · by_cases h2 : file_in_location_list l.path ign = true
      · simp only [mergeStep, h1, h2, if_true]
        exact ih acc ign
      · simp only [mergeStep, h1, h2, if_true, Bool.false_eq_true, if_false,
          List.nil_append]
        constructor
        · rw [(ih (acc ++ List.filter (fun ofl => l.path == ofl.path) O) _).1,
            (ih (List.filter (fun ofl => l.path == ofl.path) O) _).1]
          simp
        · rw [(ih (acc ++ List.filter (fun ofl => l.path == ofl.path) O) _).2,
            (ih (List.filter (fun ofl => l.path == ofl.path) O) _).2]
    · simp only [mergeStep, h1, Bool.false_eq_true, if_false, List.nil_append]
      constructor
      · rw [(ih (acc ++ [l]) ign).1, (ih [l] ign).1]
        simp
      · rw [(ih (acc ++ [l]) ign).2, (ih [l] ign).2]

lemma merge_ign_paths (O : List Location) (q : String) :
    ∀ (I : List Location) (st : List Location × List Location),
      file_in_location_list q (I.foldl (mergeStep O) st).2
        = (file_in_location_list q st.2
            || (file_in_location_list q I && file_in_location_list q O)) := by
  intro I
  induction I with
  | nil => intro st; simp [file_in_location_list]
  | cons l I ih =>
    intro st
    rw [List.foldl_cons, ih]
    by_cases h1 : file_in_location_list l.path O = true
    · by_cases h2 : file_in_location_list l.path st.2 = true
      · simp only [mergeStep, h1, h2, if_true]
        by_cases hq : l.path = q
        · rw [← hq]
          simp [file_in_cons, h1, h2]
        · simp [file_in_cons, beq_eq_false_iff_ne.2 hq]
      · simp only [mergeStep, h1, h2, if_true, Bool.false_eq_true, if_false]
        by_cases hq : l.path = q
        · rw [← hq]
          simp [file_in_cons, file_in_append, file_in_filter_path, h1, h2]
        · simp [file_in_cons, file_in_append, file_in_filter_path,
            beq_eq_false_iff_ne.2 hq]
    · simp only [mergeStep, h1, Bool.false_eq_true, if_false]
      by_cases hq : l.path = q
      · rw [← hq]
        simp only [Bool.not_eq_true] at h1
        simp [file_in_cons, h1]
      · simp [file_in_cons, beq_eq_false_iff_ne.2 hq]

lemma mergeLoop_out_nodup (O : List Location) :
    ∀ (I : List Location) (acc ign : List Location),
      (I.map Location.path).Nodup →
      (∀ x ∈ I, file_in_location_list x.path ign = false) →
      (I.foldl (mergeStep O) (acc, ign)).1
        = acc ++ I.bind (fun l =>
            if file_in_location_list l.path O then
              O.filter (fun o => l.path == o.path)
            else [l]) := by
  intro I
  induction I with
  | nil => intro acc ign _ _; simp
  | cons l I ih =>
    intro acc ign hnd hdisj
    have hlni : l.path ∉ I.map Location.path := (List.nodup_cons.1 (by simpa using hnd)).1
    have hnd' : (I.map Location.path).Nodup := (List.nodup_cons.1 (by simpa using hnd)).2
    have hl : file_in_location_list l.path ign = false := hdisj l (List.mem_cons_self _ _)
    rw [List.foldl_cons]
    by_cases h1 : file_in_location_list l.path O = true
    · have hstep : mergeStep O (acc, ign) l
          = (acc ++ O.filter (fun o => l.path == o.path),
             ign ++ O.filter (fun o => l.path == o.path)) := by
        simp [mergeStep, h1, hl]
      rw [hstep, ih _ _ hnd' ?_]
      · simp [List.cons_bind, h1]
      · intro x hx
        rw [file_in_append, hdisj x (List.mem_cons_of_mem _ hx), file_in_filter_path]
        have : (l.path == x.path) = false := by
          refine beq_eq_false_iff_ne.2 (fun hcontra => hlni ?_)
          rw [hcontra]
          exact List.mem_map.2 ⟨x, hx, rfl⟩
        simp [this]
    · have hstep : mergeStep O (acc, ign) l = (acc ++ [l], ign) := by
        simp [mergeStep, h1]
      rw [hstep, ih _ _ hnd' (fun x hx => hdisj x (List.mem_cons_of_mem _ hx))]
      simp [List.cons_bind, h1]

/-- C1: for index and open-file lists with pairwise-distinct paths, the
combine step walks the index list in order, replacing an entry whose path
occurs in the open-file list by that path's open-file entry and keeping
the rest, then appends the open-file entries whose paths are absent from
the index list, in their original order.  The second conjunct spells out
that, paths in `O` being distinct, the substituted block for a shared path
is exactly the single open-file entry with that path. -/

theorem merge_order_preservation (I O : List Location)
    (hI : (I.map Location.path).Nodup) (hO : (O.map Location.path).Nodup) :
    mergeLocations I O
      = (I.bind (fun l =>
          if file_in_location_list l.path O then
            O.filter (fun o => l.path == o.path)
          else [l]))
        ++ O.filter (fun o => !(file_in_location_list o.path I))
    ∧ ∀ o ∈ O, O.filter (fun x => o.path == x.path) = [o] := by
  constructor
  · show (I.foldl (mergeStep O) ([], [])).1
        ++ O.filter (fun ofl =>
              !(file_in_location_list ofl.path (I.foldl (mergeStep O) ([], [])).2)) = _
    rw [mergeLoop_out_nodup O I [] [] hI (fun x _ => rfl), List.nil_append]
    congr 1
    refine List.filter_congr ?_
    intro o ho
    rw [merge_ign_paths O o.path I ([], [])]
    simp only [file_in_of_mem ho, Bool.and_true]
    rfl
  · induction O with
    | nil => intro o ho; simp at ho
    | cons o' O' ih =>
      have hnotin : o'.path ∉ O'.map Location.path :=
        (List.nodup_cons.1 (by simpa using hO)).1
      have hO' : (O'.map Location.path).Nodup := (List.nodup_cons.1 (by simpa using hO)).2
      intro o ho
      rcases List.mem_cons.1 ho with rfl | ho'
      · rw [List.filter_cons, if_pos (by simp)]
        have : O'.filter (fun x => o.path == x.path) = [] := by
          refine List.filter_eq_nil.2 ?_
          intro x hx
          simp only [beq_iff_eq]
          intro hcontra
          exact hnotin (hcontra ▸ List.mem_map.2 ⟨x, hx, rfl⟩)
        rw [this]
      · have hne : (o.path == o'.path) = false := by
          refine beq_eq_false_iff_ne.2 (fun hcontra => hnotin ?_)
          rw [← hcontra]
          exact List.mem_map.2 ⟨o, ho', rfl⟩
        rw [List.filter_cons, if_neg (by simp [hne])]
        exact ih hO' o ho'

/-- Witness for C1 at the spec's worked example
`I = [(a,(1,0)), (b,(2,0))]`, `O = [(b,(9,9)), (c,(3,0))]`. -/

theorem merge_order_preservation_witness :
    mergeLocations [⟨"a", "a", 1, 0⟩, ⟨"b", "b", 2, 0⟩]
        [⟨"b", "b", 9, 9⟩, ⟨"c", "c", 3, 0⟩]
      = (([⟨"a", "a", 1, 0⟩, ⟨"b", "b", 2, 0⟩] : List Location).bind (fun l =>
          if file_in_location_list l.path [⟨"b", "b", 9, 9⟩, ⟨"c", "c", 3, 0⟩] then
            [⟨"b", "b", 9, 9⟩, ⟨"c", "c", 3, 0⟩].filter (fun o => l.path == o.path)
          else [l]))
        ++ [⟨"b", "b", 9, 9⟩, ⟨"c", "c", 3, 0⟩].filter (fun o =>
              !(file_in_location_list o.path [⟨"a", "a", 1, 0⟩, ⟨"b", "b", 2, 0⟩])) :=
  (merge_order_preservation _ _ (by decide) (by decide)).1

/-- The spec's merge example, evaluated: the shared path `b` takes the
open-file entry at the index position, and `c` is appended. -/

theorem merge_example_eval :
    mergeLocations [⟨"a", "a", 1, 0⟩, ⟨"b", "b", 2, 0⟩]
        [⟨"b", "b", 9, 9⟩, ⟨"c", "c", 3, 0⟩]
      = [⟨"a", "a", 1, 0⟩, ⟨"b", "b", 9, 9⟩, ⟨"c", "c", 3, 0⟩] := by
  decide

lemma file_in_mergeStep_ign {p : String} (O : List Location)
    (st : List Location × List Location) (x : Location)
    (hst : file_in_location_list p st.2 = true) :
    file_in_location_list p (mergeStep O st x).2 = true := by
  unfold mergeStep
  repeat' split
  all_goals simp [file_in_append, hst]

lemma mergeLoop_skip (O : List Location) (p : String)
    (hO : file_in_location_list p O = true) :
    ∀ (I : List Location) (st : List Location × List Location),
      file_in_location_list p st.2 = true →
      I.foldl (mergeStep O) st
        = (I.filter (fun x => !(x.path == p))).foldl (mergeStep O) st := by
  intro I
  induction I with
  | nil => intro st _; simp
  | cons x I ih =>
    intro st hst
    by_cases hxp : x.path = p
    · have hkeep : (!(x.path == p)) = false := by simp [hxp]
      rw [List.foldl_cons, List.filter_cons, hkeep, if_neg (by simp)]
      have hstep : mergeStep O st x = st := by
        simp [mergeStep, hxp, hO, hst]
      rw [hstep]
      exact ih st hst
    · have hkeep : (!(x.path == p)) = true := by simp [hxp]
      rw [List.foldl_cons, List.filter_cons, hkeep, if_pos rfl, List.foldl_cons]
      exact ih (mergeStep O st x) (file_in_mergeStep_ign O st x hst)

/-- C9: when path `p = l.path` occurs in both lists and `l` is its first
index occurrence, the combine loop emits, at that position, exactly the
block of *all* open-file entries with path `p`, consecutively and in their
open-file order (first conjunct); and every later index occurrence of `p`
contributes nothing: deleting the later `p`-entries from the index list
leaves the merged result unchanged (second conjunct). -/

theorem merge_duplicate_paths (O I1 I2 : List Location) (l : Location)
    (h1 : file_in_location_list l.path I1 = false)
    (h2 : file_in_location_list l.path O = true) :
    (((I1 ++ [l]).foldl (mergeStep O) ([], [])).1
        = (I1.foldl (mergeStep O) ([], [])).1 ++ O.filter (fun o => l.path == o.path))
    ∧ mergeLocations (I1 ++ l :: I2) O
        = mergeLocations (I1 ++ l :: (I2.filter (fun x => !(x.path == l.path)))) O := by
  have hmid : file_in_location_list l.path
      ((I1 ++ [l]).foldl (mergeStep O) ([], [])).2 = true := by
    rw [merge_ign_paths O l.path (I1 ++ [l]) ([], [])]
    simp [file_in_append, file_in_cons, h2]
  have hign : file_in_location_list l.path
      (I1.foldl (mergeStep O) ([], [])).2 = false := by
    rw [merge_ign_paths O l.path I1 ([], [])]
    have hnil : file_in_location_list l.path ([] : List Location) = false := rfl
    simp [h1, hnil]
  constructor
  · rw [List.foldl_append, List.foldl_cons, List.foldl_nil]
    have hstep : mergeStep O (I1.foldl (mergeStep O) ([], [])) l
        = ((I1.foldl (mergeStep O) ([], [])).1 ++ O.filter (fun o => l.path == o.path),
           (I1.foldl (mergeStep O) ([], [])).2 ++ O.filter (fun o => l.path == o.path)) := by
      simp [mergeStep, h2, hign]
    rw [hstep]
  · have hsplit : I1 ++ l :: I2 = (I1 ++ [l]) ++ I2 := by simp
    have hsplit' : I1 ++ l :: (I2.filter (fun x => !(x.path == l.path)))
        = (I1 ++ [l]) ++ (I2.filter (fun x => !(x.path == l.path))) := by simp
    have e1 : ((I1 ++ [l]) ++ I2).foldl (mergeStep O) ([], [])
        = I2.foldl (mergeStep O) ((I1 ++ [l]).foldl (mergeStep O) ([], [])) :=
      List.foldl_append (mergeStep O) ([], []) (I1 ++ [l]) I2
    have e2 : ((I1 ++ [l]) ++ (I2.filter (fun x => !(x.path == l.path)))).foldl
          (mergeStep O) ([], [])
        = (I2.filter (fun x => !(x.path == l.path))).foldl (mergeStep O)
            ((I1 ++ [l]).foldl (mergeStep O) ([], [])) :=
      List.foldl_append (mergeStep O) ([], []) (I1 ++ [l])
        (I2.filter (fun x => !(x.path == l.path)))
    have hstates : (I1 ++ l :: I2).foldl (mergeStep O) ([], [])
        = (I1 ++ l :: (I2.filter (fun x => !(x.path == l.path)))).foldl
            (mergeStep O) ([], []) := by
      rw [hsplit, hsplit', e1, e2, mergeLoop_skip O l.path h2 I2 _ hmid]
    simp only [mergeLocations]
    rw [hstates]

/-- Witness for C9: path `b` occurs twice in the index list and twice in
the open-file list; both open-file `b` entries land at the first index
occurrence, and dropping the later index occurrence changes nothing. -/

theorem merge_duplicate_paths_witness :
    ((List.foldl (mergeStep ([⟨"b", "b", 9, 9⟩, ⟨"b", "b2", 5, 5⟩, ⟨"d", "d", 7, 7⟩] : List Location))
        ([], []) (([⟨"a", "a", 1, 0⟩] : List Location) ++ [⟨"b", "b", 2, 0⟩])).1
      = (List.foldl (mergeStep ([⟨"b", "b", 9, 9⟩, ⟨"b", "b2", 5, 5⟩, ⟨"d", "d", 7, 7⟩] : List Location))
          ([], []) ([⟨"a", "a", 1, 0⟩] : List Location)).1
        ++ List.filter (fun o => (⟨"b", "b", 2, 0⟩ : Location).path == o.path)
            ([⟨"b", "b", 9, 9⟩, ⟨"b", "b2", 5, 5⟩, ⟨"d", "d", 7, 7⟩] : List Location))
    ∧ mergeLocations (([⟨"a", "a", 1, 0⟩] : List Location)
          ++ (⟨"b", "b", 2, 0⟩ : Location) :: [⟨"b", "b3", 4, 4⟩, ⟨"c", "c", 3, 0⟩])
          ([⟨"b", "b", 9, 9⟩, ⟨"b", "b2", 5, 5⟩, ⟨"d", "d", 7, 7⟩] : List Location)
      = mergeLocations (([⟨"a", "a", 1, 0⟩] : List Location)
            ++ (⟨"b", "b", 2, 0⟩ : Location) ::
              List.filter (fun x => !(x.path == (⟨"b", "b", 2, 0⟩ : Location).path))
                ([⟨"b", "b3", 4, 4⟩, ⟨"c", "c", 3, 0⟩] : List Location))
            ([⟨"b", "b", 9, 9⟩, ⟨"b", "b2", 5, 5⟩, ⟨"d", "d", 7, 7⟩] : List Location) :=
  merge_duplicate_paths [⟨"b", "b", 9, 9⟩, ⟨"b", "b2", 5, 5⟩, ⟨"d", "d", 7, 7⟩]
    [⟨"a", "a", 1, 0⟩] [⟨"b", "b3", 4, 4⟩, ⟨"c", "c", 3, 0⟩] ⟨"b", "b", 2, 0⟩
    (by decide) (by decide)
